import Mathlib

/-!
Shallow embedding of the codecrafters-redis-rust server core, together with
proofs about its RESP codec, stream log, key-value engine, transaction replay
and replication forwarding. Strings from the Rust source are modelled as
`List Char`; machine integers as `Nat`/`Int` with explicit wrapping where the
source casts.
-/

namespace Redis

/- ## RESP values (src/parser.rs, enum RedisValue) -/

inductive RedisValue where
  | simpleString (s : List Char)
  | simpleError (s : List Char)
  | integer (i : Int)
  /-- Contains size and actual string. -/
  | bulkString (size : Nat) (s : List Char)
  | nullBulkString
  /-- Contains nb of elements and actual values. -/
  | array (size : Nat) (elems : List RedisValue)

def crlf : List Char := ['\r', '\n']

/- Decimal printing of unsigned integers, as Rust's Display for u64/usize.
The fuel argument makes the recursion structural; fuel n is always enough. -/

def digitChar (d : Nat) : Char := Char.ofNat (48 + d)

def natToCharsAux : Nat → Nat → List Char
  | 0, _ => []
  | _, 0 => []
  | fuel + 1, n + 1 =>
      natToCharsAux fuel ((n + 1) / 10) ++ [digitChar ((n + 1) % 10)]

def natToChars (n : Nat) : List Char :=
  if n = 0 then ['0'] else natToCharsAux n n

/-- Decimal printing of a signed integer, as Rust's Display for i64. -/
def intToChars (i : Int) : List Char :=
  if i < 0 then '-' :: natToChars i.natAbs else natToChars i.toNat

/- ## RESP encoding (src/parser.rs, impl Display for RedisValue) -/

mutual
def encode : RedisValue → List Char
  | .simpleString s => '+' :: (s ++ crlf)
  | .simpleError s => '-' :: (s ++ crlf)
  | .integer i => ':' :: (intToChars i ++ crlf)
  | .bulkString size s => '$' :: (natToChars size ++ crlf ++ s ++ crlf)
  | .nullBulkString => '$' :: ('-' :: '1' :: crlf)
  | .array size elems => '*' :: (natToChars size ++ crlf ++ encodeList elems)

def encodeList : List RedisValue → List Char
  | [] => []
  | v :: vs => encode v ++ encodeList vs
end

/- ## RESP parsing (src/parser.rs, parse_redis_value and helpers) -/

/-- Models the nom tag for the CRLF separator. -/
def parseCrlf : List Char → Option (List Char)
  | '\r' :: '\n' :: rest => some rest
  | _ => none

/-- Models terminated(take_until CRLF, tag CRLF): text up to the first CRLF. -/
def parseUntilCrlf : List Char → Option (List Char × List Char)
  | [] => none
  | [_] => none
  | c1 :: c2 :: rest =>
      if c1 = '\r' ∧ c2 = '\n' then some ([], rest)
      else (parseUntilCrlf (c2 :: rest)).map fun p => (c1 :: p.1, p.2)

def charToDigit (c : Char) : Nat := c.toNat - 48

def digitsVal (l : List Char) : Nat :=
  l.foldl (fun acc c => 10 * acc + charToDigit c) 0

/-- Greedily consume one or more decimal digits (nom digit1 folding). -/
def parseDigits (input : List Char) : Option (Nat × List Char) :=
  let ds := input.takeWhile (fun c => c.isDigit)
  if ds.isEmpty then none
  else some (digitsVal ds, input.dropWhile (fun c => c.isDigit))

/-- Models nom complete::i64: optional sign then digits. -/
def parseSignedInt : List Char → Option (Int × List Char)
  | [] => none
  | c :: rest =>
      if c = '-' then (parseDigits rest).map fun p => (-(p.1 : Int), p.2)
      else if c = '+' then (parseDigits rest).map fun p => ((p.1 : Int), p.2)
      else (parseDigits (c :: rest)).map fun p => ((p.1 : Int), p.2)

/-- Models parse_redis_int: terminated(complete::i64, crlf). -/
def parseRedisInt (input : List Char) : Option (Int × List Char) :=
  (parseSignedInt input).bind fun p => (parseCrlf p.2).map fun r => (p.1, r)

/-- Models nom take(n): exactly n elements of the input. -/
def takeExact : Nat → List Char → Option (List Char × List Char)
  | 0, input => some ([], input)
  | _ + 1, [] => none
  | n + 1, c :: rest => (takeExact n rest).map fun p => (c :: p.1, p.2)

/-- Models parse_bulkstring_word: take(length) then crlf. -/
def parseBulkstringWord (n : Nat) (input : List Char) :
    Option (List Char × List Char) :=
  (takeExact n input).bind fun p => (parseCrlf p.2).map fun r => (p.1, r)

/-- The source loop `for _ in 0..nb_elements`, abstracted over the element
parser: parse exactly n values, threading the remaining input. -/
def parseCount (p : List Char → Option (RedisValue × List Char)) :
    Nat → List Char → Option (List RedisValue × List Char)
  | 0, input => some ([], input)
  | n + 1, input =>
      (p input).bind fun q =>
        (parseCount p n q.2).map fun r => (q.1 :: r.1, r.2)

/-- Models parse_redis_value. The fuel bounds the nesting depth of arrays;
the source recursion is bounded by the input, and every value produced by
encode is parsed back with fuel at least its size (proved below). The
`as usize` cast of the source is the mod-2^64 reduction. -/
def parseRedisValue : Nat → List Char → Option (RedisValue × List Char)
  | 0, _ => none
  | fuel + 1, input =>
      match input with
      | [] => none
      | c :: input =>
        if c = '+' then
          (parseUntilCrlf input).map fun p => (.simpleString p.1, p.2)
        else if c = '-' then
          (parseUntilCrlf input).map fun p => (.simpleError p.1, p.2)
        else if c = ':' then
          (parseRedisInt input).map fun p => (.integer p.1, p.2)
        else if c = '$' then
          (parseRedisInt input).bind fun p =>
            if p.1 = -1 then some (.nullBulkString, p.2)
            else
              let wordLength := (p.1.emod (2 ^ 64)).toNat
              (parseBulkstringWord wordLength p.2).map fun q =>
                (.bulkString wordLength q.1, q.2)
        else if c = '*' then
          (parseRedisInt input).bind fun p =>
            let nbElements := (p.1.emod (2 ^ 64)).toNat
            (parseCount (parseRedisValue fuel) nbElements p.2).map fun q =>
              (.array nbElements q.1, q.2)
        else none

/-- The nested sequence-of-values parse from the source array branch. -/
def parseRedisValues (fuel n : Nat) (input : List Char) :
    Option (List RedisValue × List Char) :=
  parseCount (parseRedisValue fuel) n input

/- ## Well-formedness of RESP values

The round-trip law quantifies over well-formed values: the stored size
fields agree with the actual lengths (the source writes the stored field),
simple strings and errors contain no CRLF (the spec grammar allows only
printable text before the CRLF terminator), and the numeric fields fit the
source machine-integer types i64 and usize. -/

def containsCrlf : List Char → Bool
  | c1 :: c2 :: rest =>
      if c1 = '\r' ∧ c2 = '\n' then true else containsCrlf (c2 :: rest)
  | _ => false

mutual
def wellFormed : RedisValue → Bool
  | .simpleString s => !containsCrlf s
  | .simpleError s => !containsCrlf s
  | .integer i => decide (-(2 ^ 63) ≤ i) && decide (i < 2 ^ 63)
  | .bulkString size s => decide (size = s.length) && decide (s.length < 2 ^ 63)
  | .nullBulkString => true
  | .array size elems =>
      decide (size = elems.length) && decide (elems.length < 2 ^ 63) &&
        wellFormedList elems

def wellFormedList : List RedisValue → Bool
  | [] => true
  | v :: vs => wellFormed v && wellFormedList vs
end

mutual
def sizeOfV : RedisValue → Nat
  | .array _ elems => 1 + sizeOfL elems
  | _ => 1

def sizeOfL : List RedisValue → Nat
  | [] => 0
  | v :: vs => sizeOfV v + sizeOfL vs
end

/- ## Association-list model of the source HashMaps -/

def alLookup {α β : Type} [DecidableEq α] : List (α × β) → α → Option β
  | [], _ => none
  | (k, v) :: r, key => if k = key then some v else alLookup r key

def alInsert {α β : Type} [DecidableEq α] : List (α × β) → α → β → List (α × β)
  | [], key, val => [(key, val)]
  | (k, v) :: r, key, val =>
      if k = key then (key, val) :: r else (k, v) :: alInsert r key val

def alRemove {α β : Type} [DecidableEq α] (l : List (α × β)) (key : α) :
    List (α × β) :=
  l.filter fun p => !decide (p.1 = key)

/- ## Stream log (src/stream.rs) -/

/-- StreamId with derived lexicographic order (timestamp then sequence). -/
structure StreamId where
  timestampMs : Nat
  seqNumber : Nat
  deriving DecidableEq

/-- The derived Rust Ord: less-or-equal, lexicographically. -/
def StreamId.ble (a b : StreamId) : Bool :=
  decide (a.timestampMs < b.timestampMs) ||
    (decide (a.timestampMs = b.timestampMs) && decide (a.seqNumber ≤ b.seqNumber))

/-- The derived Rust Ord: strictly less, lexicographically. -/
def StreamId.blt (a b : StreamId) : Bool :=
  decide (a.timestampMs < b.timestampMs) ||
    (decide (a.timestampMs = b.timestampMs) && decide (a.seqNumber < b.seqNumber))

/-- Display for StreamId: timestamp, dash, sequence number. -/
def streamIdToString (sid : StreamId) : List Char :=
  natToChars sid.timestampMs ++ '-' :: natToChars sid.seqNumber

structure StreamEntry where
  streamId : StreamId
  store : List (List Char × List Char)
  deriving DecidableEq

structure Stream where
  entries : List StreamEntry
  deriving DecidableEq

def Stream.getLastStreamId (s : Stream) : StreamId :=
  ((s.entries.getLast?).map fun e => e.streamId).getD ⟨0, 0⟩

/-- Stream::next_stream_id, verbatim from the source: when the current time
does not exceed the last timestamp, the source sets the sequence number to
last.timestamp_ms + 1. -/
def Stream.nextStreamId (s : Stream) (now : Nat) : StreamId :=
  let last := s.getLastStreamId
  if now > last.timestampMs then ⟨now, 0⟩
  else ⟨last.timestampMs, last.timestampMs + 1⟩

/- ## Errors (src/error.rs, the variants reachable from the modelled code) -/

inductive RError where
  | invalidRedisCommand
  | cantConvertToMsTimestamp (s : List Char)
  | invalidStreamId (shouldBeGreaterThan got : List Char)
  | wrongTypeOperation
  | parseIntError
  deriving DecidableEq

/-- Rust str::split_once for the dash: split at the first occurrence. -/
def splitOnceDash : List Char → Option (List Char × List Char)
  | [] => none
  | c :: r =>
      if c = '-' then some ([], r)
      else (splitOnceDash r).map fun p => (c :: p.1, p.2)

/-- Shared digits-only parse: nonempty, all decimal digits. -/
def digitsOnlyVal (ds : List Char) : Option Nat :=
  if ds.isEmpty then none
  else if ds.all fun c => c.isDigit then some (digitsVal ds) else none

/-- Rust str::parse::<u64>: optional plus sign, digits, range check. -/
def parseU64 (s : List Char) : Option Nat :=
  match s with
  | [] => none
  | c :: r =>
      let ds := if c = '+' then r else c :: r
      match digitsOnlyVal ds with
      | none => none
      | some n => if n < 2 ^ 64 then some n else none

/-- Rust str::parse::<i64>: optional sign, digits, range check. -/
def parseI64 (s : List Char) : Option Int :=
  match s with
  | [] => none
  | c :: r =>
      let p := if c = '-' then (true, r)
        else if c = '+' then (false, r) else (false, c :: r)
      match digitsOnlyVal p.2 with
      | none => none
      | some n =>
          let i : Int := if p.1 then -(n : Int) else (n : Int)
          if -(2 ^ 63) ≤ i ∧ i < 2 ^ 63 then some i else none

/-- Stream::create_stream_id. -/
def Stream.createStreamId (s : Stream) (now : Nat) (value : List Char) :
    Except RError StreamId :=
  if value = ['*'] then .ok (s.nextStreamId now)
  else
    let p := match splitOnceDash value with
      | none => (value, none)
      | some q => (q.1, some q.2)
    if p.1.length > 13 then .error (.cantConvertToMsTimestamp p.1)
    else
      match parseU64 p.1 with
      | none => .error .parseIntError
      | some tsn =>
          match p.2 with
          | none => .ok ⟨tsn, 0⟩
          | some sq =>
              if sq = ['*'] then
                let last := s.getLastStreamId
                .ok ⟨tsn, if last.timestampMs = tsn then last.seqNumber + 1
                  else if tsn = 0 then 1 else 0⟩
              else
                match parseU64 sq with
                | none => .error .parseIntError
                | some sn => .ok ⟨tsn, sn⟩

/-- Stream::xadd: with an explicit id, reject ids not above the last one;
with none, generate via next_stream_id and append unconditionally. -/
def Stream.xadd (s : Stream) (now : Nat)
    (store : List (List Char × List Char)) (sid? : Option StreamId) :
    Except RError (StreamId × Stream) :=
  match sid? with
  | none =>
      let sid := s.nextStreamId now
      .ok (sid, ⟨s.entries ++ [⟨sid, store⟩]⟩)
  | some sid =>
      if sid.ble s.getLastStreamId then
        .error (.invalidStreamId (streamIdToString s.getLastStreamId)
          (streamIdToString sid))
      else .ok (sid, ⟨s.entries ++ [⟨sid, store⟩]⟩)

/-- Stream::xrange. -/
def Stream.xrange (s : Stream) (now : Nat) (startSpec endSpec : List Char) :
    Except RError (List (List Char × List (List Char × List Char))) :=
  if s.entries.isEmpty then .ok []
  else
    match (if startSpec = ['-'] then Except.ok (some 0)
      else (s.createStreamId now startSpec).map fun sid =>
        s.entries.findIdx? fun e => sid.ble e.streamId) with
    | .error e => .error e
    | .ok startIdx =>
        match (if endSpec = ['+'] then Except.ok s.entries.length
          else (s.createStreamId now endSpec).map fun sid =>
            (s.entries.findIdx? fun e => sid.blt e.streamId).getD
              s.entries.length) with
        | .error e => .error e
        | .ok endIdx =>
            match startIdx with
            | none => .ok []
            | some i =>
                .ok (((s.entries.take endIdx).drop i).map fun e =>
                  (streamIdToString e.streamId, e.store))

/-- Stream::xread: like xrange but strictly-greater start and no end. -/
def Stream.xread (s : Stream) (now : Nat) (startSpec : List Char) :
    Except RError (List (List Char × List (List Char × List Char))) :=
  if s.entries.isEmpty then .ok []
  else
    match (if startSpec = ['-'] then Except.ok (some 0)
      else (s.createStreamId now startSpec).map fun sid =>
        s.entries.findIdx? fun e => sid.blt e.streamId) with
    | .error e => .error e
    | .ok none => .ok []
    | .ok (some i) =>
        .ok ((s.entries.drop i).map fun e =>
          (streamIdToString e.streamId, e.store))

/- ## Key-value engine (src/db.rs) -/

inductive ValueType where
  | string (s : List Char)
  | stream (s : Stream)
  deriving DecidableEq

structure DbValue where
  value : ValueType
  expiresAt : Option Nat
  deriving DecidableEq

/-- DbValue::is_expired: now at or past the stored deadline. -/
def DbValue.isExpired (dbv : DbValue) (now : Nat) : Bool :=
  match dbv.expiresAt with
  | some e => decide (now ≥ e)
  | none => false

structure DbInfo where
  role : List Char
  port : Nat
  masterReplid : List Char
  masterReplOffset : Nat
  dir : List Char
  dbfilename : List Char
  deriving DecidableEq

/- ## Commands (src/command.rs, enum RedisCommand) -/

inductive RedisCommand where
  | ping
  | echo (x : List Char)
  | set (key value : List Char) (px : Option Nat)
  | get (key : List Char)
  | incr (key : List Char)
  | info (x : List Char)
  | replConf
  | replConfGetAck
  | psync
  | wait (nbReplicas timeout : Nat)
  | configGet (v : List Char)
  | keys (pat : List Char)
  | typeOf (key : List Char)
  | xadd (key streamId : List Char) (store : List (List Char × List Char))
  | xrange (key streamIdStart streamIdEnd : List Char)
  | xread (block : Option Nat) (keyOffsetPairs : List (List Char × List Char))
  | multi
  | exec
  | discard
  deriving DecidableEq

structure PendingStreamXread where
  connectionToken : Nat
  initialTime : Nat
  timeout : Nat
  keyOffsetPairs : List (List Char × List Char)
  deriving DecidableEq

/-- The db state threaded through command execution. The transactions map
lives on the db as in the connection handler source. -/
structure RedisDb where
  info : DbInfo
  store : List (List Char × DbValue)
  processedBytes : Nat
  pendingStreamXread : Option PendingStreamXread
  ongoingTransactions : List (Nat × List RedisCommand)
  deriving DecidableEq

/-- RedisDb::set. -/
def RedisDb.set (db : RedisDb) (now : Nat) (key : List Char) (v : ValueType)
    (px : Option Nat) : RedisDb :=
  { db with store := alInsert db.store key ⟨v, px.map fun d => now + d⟩ }

/-- RedisDb::get: lazily removes an expired entry and returns none. -/
def RedisDb.get (db : RedisDb) (now : Nat) (key : List Char) :
    Option ValueType × RedisDb :=
  match alLookup db.store key with
  | none => (none, db)
  | some dbv =>
      if dbv.isExpired now then
        (none, { db with store := alRemove db.store key })
      else (some dbv.value, db)

/-- RedisDb::incr. -/
def RedisDb.incr (db : RedisDb) (key : List Char) :
    Except RError Int × RedisDb :=
  match alLookup db.store key with
  | none =>
      (.ok 1, { db with store := alInsert db.store key ⟨.string ['1'], none⟩ })
  | some dbv =>
      match dbv.value with
      | .string val =>
          match parseI64 val with
          | some n =>
              (.ok (n + 1), { db with store := (alInsert db.store key
                ⟨.string (intToChars (n + 1)), dbv.expiresAt⟩) })
          | none => (.error .parseIntError, db)
      | .stream _ => (.error .wrongTypeOperation, db)

/-- The pending-xread timeout adjustment at the top of RedisDb::xadd. -/
def tweakPendingOnXadd (db : RedisDb) (key : List Char) : RedisDb :=
  match db.pendingStreamXread with
  | some p =>
      if p.timeout = 0 ∧ ∃ q ∈ p.keyOffsetPairs, q.1 = key then
        { db with pendingStreamXread := some { p with timeout := 1 } }
      else db
  | none => db

/-- RedisDb::xadd: adjust pending xread, create the stream entry if the key
is absent, resolve the id spec, append. -/
def RedisDb.xadd (db : RedisDb) (now : Nat) (key streamIdSpec : List Char)
    (fields : List (List Char × List Char)) :
    Except RError (List Char) × RedisDb :=
  let db1 := tweakPendingOnXadd db key
  let go : DbValue → List (List Char × DbValue) →
      Except RError (List Char) × RedisDb := fun dbv st =>
    match dbv.value with
    | .stream s =>
        match s.createStreamId now streamIdSpec with
        | .error e => (.error e, { db1 with store := st })
        | .ok sid =>
            match s.xadd now fields (some sid) with
            | .error e => (.error e, { db1 with store := st })
            | .ok (rid, s') =>
                (.ok (streamIdToString rid),
                  { db1 with store := alInsert st key ⟨.stream s', dbv.expiresAt⟩ })
    | .string _ => (.error .wrongTypeOperation, { db1 with store := st })
  match alLookup db1.store key with
  | none => go ⟨.stream ⟨[]⟩, none⟩ (alInsert db1.store key ⟨.stream ⟨[]⟩, none⟩)
  | some dbv => go dbv db1.store

/-- RedisDb::xrange (creates an empty stream when the key is absent). -/
def RedisDb.xrange (db : RedisDb) (now : Nat) (key startSpec endSpec : List Char) :
    Except RError (List (List Char × List (List Char × List Char))) × RedisDb :=
  match alLookup db.store key with
  | none =>
      ((Stream.mk []).xrange now startSpec endSpec,
        { db with store := alInsert db.store key ⟨.stream ⟨[]⟩, none⟩ })
  | some dbv =>
      match dbv.value with
      | .stream s => (s.xrange now startSpec endSpec, db)
      | .string _ => (.error .wrongTypeOperation, db)

/-- RedisDb::xread (creates an empty stream when the key is absent). -/
def RedisDb.xread (db : RedisDb) (now : Nat) (key startSpec : List Char) :
    Except RError (List (List Char × List (List Char × List Char))) × RedisDb :=
  match alLookup db.store key with
  | none =>
      ((Stream.mk []).xread now startSpec,
        { db with store := alInsert db.store key ⟨.stream ⟨[]⟩, none⟩ })
  | some dbv =>
      match dbv.value with
      | .stream s => (s.xread now startSpec, db)
      | .string _ => (.error .wrongTypeOperation, db)

/-- RedisDb::keys (the pattern is ignored by the source). -/
def RedisDb.keys (db : RedisDb) (_pat : List Char) : List (List Char) :=
  db.store.map fun p => p.1

/- ## Response construction helpers (src/parser.rs) -/

def splitWhitespaceAux : List Char → List Char → List (List Char)
  | [], acc => if acc.isEmpty then [] else [acc.reverse]
  | c :: r, acc =>
      if c.isWhitespace then
        if acc.isEmpty then splitWhitespaceAux r []
        else acc.reverse :: splitWhitespaceAux r []
      else splitWhitespaceAux r (c :: acc)

/-- Rust str::split_whitespace: maximal nonempty runs between whitespace. -/
def splitWhitespace (s : List Char) : List (List Char) :=
  splitWhitespaceAux s []

/-- RedisValue::bulkstring_from. -/
def bulkstringFrom (s : List Char) : RedisValue := .bulkString s.length s

/-- RedisValue::array_of_bulkstrings_from. -/
def arrayOfBulkstringsFrom (s : List Char) : RedisValue :=
  let ws := splitWhitespace s
  .array ws.length (ws.map bulkstringFrom)

/-- Vec::join with a single space. -/
def joinSpace : List (List Char) → List Char
  | [] => []
  | [w] => w
  | w :: ws => w ++ ' ' :: joinSpace ws

/-- Display for DbInfo. -/
def infoDisplay (i : DbInfo) : List Char :=
  "role:".data ++ i.role ++ crlf ++
    "master_replid:".data ++ i.masterReplid ++ crlf ++
    "master_repl_offset:".data ++ natToChars i.masterReplOffset ++ crlf

def incrErrMsg : List Char :=
  "ERR value is not an integer or out of range".data

def xaddZeroErrMsg : List Char :=
  "ERR The ID specified in XADD must be greater than 0-0".data

def xaddSmallErrMsg : List Char :=
  "ERR The ID specified in XADD is equal or smaller than the target stream top item".data

/- ## Command execution (src/command.rs, RedisCommand::execute) -/

/-- Outcome of RedisCommand::execute: Ok value, Err, or a panicking branch
(the source todo macro). The db carries the mutations made before return. -/
inductive ExecOutcome where
  | ok (v : RedisValue) (db : RedisDb)
  | error (e : RError) (db : RedisDb)
  | panic

/-- One (id, fields) pair rendered as in the xrange and xread arms. -/
def entryPairsToValue (p : List Char × List (List Char × List Char)) :
    RedisValue :=
  .array 2 [bulkstringFrom p.1,
    arrayOfBulkstringsFrom (joinSpace (p.2.map fun q => q.1 ++ ' ' :: q.2))]

/-- The Rust matches test for a one-element RESP array. -/
def isSingletonArray : RedisValue → Bool
  | .array 1 _ => true
  | _ => false

/-- One iteration of the xread arm over a (key, start) pair. -/
def xreadStep (now : Nat) (acc : List RedisValue × RedisDb)
    (pair : List Char × List Char) : List RedisValue × RedisDb :=
  let r := RedisDb.xread acc.2 now pair.1 pair.2
  let res := match r.1 with
    | .ok v => v
    | .error _ => []
  let intermediate := res.map entryPairsToValue
  let el := if intermediate.isEmpty then
      RedisValue.array 1 [bulkstringFrom pair.1]
    else RedisValue.array 2
      [bulkstringFrom pair.1, .array intermediate.length intermediate]
  (acc.1 ++ [el], r.2)

/-- RedisCommand::execute. -/
def execute (c : RedisCommand) (db : RedisDb) (now : Nat) : ExecOutcome :=
  match c with
  | .ping => .ok (.simpleString "PONG".data) db
  | .echo x => .ok (.simpleString x) db
  | .set k v px => .ok (.simpleString "OK".data) (db.set now k (.string v) px)
  | .get k =>
      match db.get now k with
      | (some (.string v), db') => .ok (.simpleString v) db'
      | (some (.stream _), _) => .panic
      | (none, db') => .ok .nullBulkString db'
  | .incr k =>
      match db.incr k with
      | (.ok n, db') => .ok (.integer n) db'
      | (.error _, db') => .ok (.simpleError incrErrMsg) db'
  | .info x =>
      if x = "replication".data then
        .ok (.bulkString (infoDisplay db.info).length (infoDisplay db.info)) db
      else .error .invalidRedisCommand db
  | .replConf => .ok (.simpleString "OK".data) db
  | .replConfGetAck =>
      .ok (arrayOfBulkstringsFrom
        ("REPLCONF ACK ".data ++ natToChars db.processedBytes)) db
  | .psync =>
      .ok (.simpleString
        ("FULLRESYNC ".data ++ db.info.masterReplid ++ " 0".data)) db
  | .wait _ _ => .panic
  | .configGet v =>
      if v = "dir".data then
        .ok (arrayOfBulkstringsFrom ("dir ".data ++ db.info.dir)) db
      else if v = "dbfilename".data then
        .ok (arrayOfBulkstringsFrom ("dbfilename ".data ++ db.info.dbfilename)) db
      else .error .invalidRedisCommand db
  | .keys pat => .ok (arrayOfBulkstringsFrom (joinSpace (db.keys pat))) db
  | .typeOf k =>
      match db.get now k with
      | (some (.string _), db') => .ok (.simpleString "string".data) db'
      | (some (.stream _), db') => .ok (.simpleString "stream".data) db'
      | (none, db') => .ok (.simpleString "none".data) db'
  | .xadd k sid fields =>
      match db.xadd now k sid fields with
      | (.ok ridStr, db') => .ok (bulkstringFrom ridStr) db'
      | (.error (.invalidStreamId _ got), db') =>
          if got = "0-0".data then .ok (.simpleError xaddZeroErrMsg) db'
          else .ok (.simpleError xaddSmallErrMsg) db'
      | (.error _, db') => .error .invalidRedisCommand db'
  | .xrange k s1 s2 =>
      match db.xrange now k s1 s2 with
      | (.error e, db') => .error e db'
      | (.ok res, db') =>
          let intermediate := res.map entryPairsToValue
          .ok (.array intermediate.length intermediate) db'
  | .xread _ pairs =>
      let r := pairs.foldl (xreadStep now) ([], db)
      if r.1.all isSingletonArray then .ok .nullBulkString r.2
      else .ok (.array r.1.length r.1) r.2
  | .multi => .panic
  | .exec => .panic
  | .discard => .panic

/- ## Transaction replay (src/connection_handler.rs, EXEC branch) -/

/-- The EXEC loop: execute each queued command in order, collecting the
responses; any Err or panicking branch aborts the loop. -/
def execCommands : List RedisCommand → RedisDb → Nat →
    Option (List RedisValue × RedisDb)
  | [], db, _ => some ([], db)
  | c :: cs, db, now =>
      match execute c db now with
      | .ok v db' => (execCommands cs db' now).map fun p => (v :: p.1, p.2)
      | _ => none

/-- The EXEC branch of handle_connection: remove this connection's queue,
run the queued commands in order, reply with the array of responses. -/
def handleExec (token : Nat) (db : RedisDb) (now : Nat) :
    Option (RedisValue × RedisDb) :=
  match alLookup db.ongoingTransactions token with
  | none => none
  | some commands =>
      let db1 :=
        { db with ongoingTransactions := alRemove db.ongoingTransactions token }
      match execCommands commands db1 now with
      | some p => some (.array p.1.length p.1, p.2)
      | none => none

/- ## Replication forwarding (src/command.rs and src/db.rs) -/

/-- RedisCommand::should_forward_to_replicas. -/
def shouldForwardToReplicas : RedisCommand → Bool
  | .set _ _ _ => true
  | _ => false

/-- A replica as the master sees it; sent models the bytes written to its
socket so far. -/
structure Replica where
  upToDate : Bool
  sent : List Char
  token : Nat

/-- RedisDb::mark_replicas_as_outdated. -/
def markReplicasAsOutdated (rs : List Replica) : List Replica :=
  rs.map fun r => { r with upToDate := false }

/-- RedisDb::send_to_replicas. -/
def sendToReplicas (rv : RedisValue) (ignoreUpToDate : Bool)
    (rs : List Replica) : List Replica :=
  rs.map fun r =>
    if r.upToDate && ignoreUpToDate then r
    else { r with sent := r.sent ++ encode rv }

/-- The forwarding step at the end of handle_connection: mark all replicas
outdated, then write the original array to every replica. -/
def forwardToReplicas (rv : RedisValue) (rs : List Replica) : List Replica :=
  sendToReplicas rv false (markReplicasAsOutdated rs)

/- ## Snapshot length decoding (src/rdb.rs, impl BinRead for LengthEncoding) -/

/-- LengthEncoding::read_options over a byte list; in the 01 case the source
combines the parts with bitwise AND. -/
def lengthEncodingRead : List Nat → Option (Nat × List Nat)
  | [] => none
  | b :: rest =>
      match b >>> 6 with
      | 0 => some (b &&& 63, rest)
      | 1 =>
          match rest with
          | [] => none
          | b2 :: rest2 => some (((b &&& 63) <<< 8) &&& b2, rest2)
      | 2 =>
          match rest with
          | [] => none
          | b2 :: rest2 => some (b2, rest2)
      | _ => none

/-- LengthEncoding::write_options over a byte list. -/
def lengthEncodingWrite (len : Nat) : List Nat :=
  if len < 192 then [len]
  else if len < 256 then [128, len]
  else [(len >>> 8) ||| 64, len &&& 255]

/-- The 14-bit length formula as the spec states it: the low six bits of the
first byte are the high bits, the entire second byte is the least
significant byte. -/
def specLength14 (b1 b2 : Nat) : Nat := ((b1 &&& 63) <<< 8) ||| b2

/- ## Concrete states used to witness the theorems -/

/-- A freshly built database (DbInfo::build values, RedisDb::build state). -/
def emptyDb : RedisDb :=
  ⟨⟨"master".data, 6379, "8371b4fb1155b71f4a04d3e1bc3e18c4a990aeeb".data, 0,
    "/tmp/redis-files".data, "dump.rdb".data⟩, [], 0, none, []⟩

/-- A database holding the string bar under the key foo. -/
def getDemoDb : RedisDb :=
  { emptyDb with store := [("foo".data, ⟨.string "bar".data, none⟩)] }

/-- A database holding a one-entry stream under the key s. -/
def streamDemoDb : RedisDb :=
  { emptyDb with store := [("s".data, ⟨.stream ⟨[⟨⟨1, 1⟩, []⟩]⟩, none⟩)] }

/-- A database with an open transaction of two INCR commands for token 20. -/
def txDemoDb : RedisDb :=
  { emptyDb with
    ongoingTransactions := [(20, [.incr "k".data, .incr "k".data])] }

theorem sizeOfV_pos (v : RedisValue) : 1 ≤ sizeOfV v := by
  cases v <;> simp [sizeOfV]

/- ## Decimal digit lemmas -/

theorem digitChar_isDigit {d : Nat} (h : d < 10) : (digitChar d).isDigit = true := by
  interval_cases d <;> decide

theorem charToDigit_digitChar {d : Nat} (h : d < 10) :
    charToDigit (digitChar d) = d := by
  interval_cases d <;> decide

theorem natToCharsAux_digits :
    ∀ fuel n, ∀ c ∈ natToCharsAux fuel n, c.isDigit = true := by
  intro fuel
  induction fuel with
  | zero => intro n c hc; simp [natToCharsAux] at hc
  | succ f ih =>
    intro n c hc
    match n with
    | 0 => simp [natToCharsAux] at hc
    | m + 1 =>
      rw [natToCharsAux] at hc
      rcases List.mem_append.mp hc with hc | hc
      · exact ih _ _ hc
      · rw [List.mem_singleton.mp hc]
        exact digitChar_isDigit (Nat.mod_lt _ (by omega))

theorem digitsVal_append (l : List Char) (c : Char) :
    digitsVal (l ++ [c]) = 10 * digitsVal l + charToDigit c := by
  simp [digitsVal, List.foldl_append]

theorem natToCharsAux_val : ∀ fuel n, n ≤ fuel →
    digitsVal (natToCharsAux fuel n) = n := by
  intro fuel
  induction fuel with
  | zero =>
    intro n hn
    interval_cases n
    simp [natToCharsAux, digitsVal]
  | succ f ih =>
    intro n hn
    match n with
    | 0 => simp [natToCharsAux, digitsVal]
    | m + 1 =>
      rw [natToCharsAux, digitsVal_append,
        charToDigit_digitChar (Nat.mod_lt _ (by omega)),
        ih ((m + 1) / 10)
          (by
            have := Nat.div_lt_self (show 0 < m + 1 by omega)
              (show 1 < 10 by omega)
            omega)]
      omega

theorem natToChars_ne_nil (n : Nat) : natToChars n ≠ [] := by
  unfold natToChars
  split
  · simp
  · obtain ⟨m, rfl⟩ : ∃ m, n = m + 1 := ⟨n - 1, by omega⟩
    rw [natToCharsAux]
    simp

theorem natToChars_digits (n : Nat) : ∀ c ∈ natToChars n, c.isDigit = true := by
  intro c hc
  unfold natToChars at hc
  split at hc
  · rw [List.mem_singleton.mp hc]; decide
  · exact natToCharsAux_digits _ _ _ hc

theorem digitsVal_natToChars (n : Nat) : digitsVal (natToChars n) = n := by
  unfold natToChars
  split
  · rename_i h
    rw [h]
    decide
  · exact natToCharsAux_val n n le_rfl

/- ## Digit-run parsing lemmas -/

theorem takeWhile_append_of_all {p : Char → Bool} {l r : List Char}
    (hl : ∀ c ∈ l, p c = true)
    (hr : ∀ c, r.head? = some c → p c = false) :
    (l ++ r).takeWhile p = l ∧ (l ++ r).dropWhile p = r := by
  induction l with
  | nil =>
    cases r with
    | nil => simp
    | cons c r' =>
      have := hr c rfl
      simp [List.takeWhile_cons, List.dropWhile_cons, this]
  | cons c l' ih =>
    have hc : p c = true := hl c (by simp)
    have := ih (fun x hx => hl x (by simp [hx]))
    simp [List.takeWhile_cons, List.dropWhile_cons, hc, this]

theorem parseDigits_exact {ds rest : List Char}
    (h1 : ∀ c ∈ ds, c.isDigit = true) (h2 : ds ≠ [])
    (h3 : ∀ c, rest.head? = some c → c.isDigit = false) :
    parseDigits (ds ++ rest) = some (digitsVal ds, rest) := by
  obtain ⟨ht, hd⟩ := takeWhile_append_of_all h1 h3
  unfold parseDigits
  rw [ht, hd]
  cases ds with
  | nil => exact absurd rfl h2
  | cons c ds' => simp

theorem isDigit_ne_sign {c : Char} (h : c.isDigit = true) : c ≠ '-' ∧ c ≠ '+' := by
  refine ⟨fun hc => ?_, fun hc => ?_⟩ <;> rw [hc] at h <;>
    exact absurd h (by decide)

theorem parseSignedInt_natToChars {n : Nat} {rest : List Char}
    (h3 : ∀ c, rest.head? = some c → c.isDigit = false) :
    parseSignedInt (natToChars n ++ rest) = some ((n : Int), rest) := by
  obtain ⟨d, ds, hds⟩ : ∃ d ds, natToChars n = d :: ds := by
    cases h : natToChars n with
    | nil => exact absurd h (natToChars_ne_nil n)
    | cons d ds => exact ⟨d, ds, rfl⟩
  have hd : d.isDigit = true := natToChars_digits n d (by rw [hds]; simp)
  obtain ⟨h1, h2⟩ := isDigit_ne_sign hd
  have hpd : parseDigits (natToChars n ++ rest) = some (digitsVal (natToChars n), rest) :=
    parseDigits_exact (natToChars_digits n) (natToChars_ne_nil n) h3
  rw [hds] at hpd ⊢
  rw [List.cons_append]
  simp only [parseSignedInt]
  rw [if_neg h1, if_neg h2, ← List.cons_append, hpd, ← hds, digitsVal_natToChars]
  simp

theorem parseSignedInt_intToChars {i : Int} {rest : List Char}
    (h3 : ∀ c, rest.head? = some c → c.isDigit = false) :
    parseSignedInt (intToChars i ++ rest) = some (i, rest) := by
  unfold intToChars
  split
  · rename_i hi
    rw [List.cons_append]
    simp only [parseSignedInt]
    rw [if_pos trivial,
      parseDigits_exact (natToChars_digits _) (natToChars_ne_nil _) h3,
      digitsVal_natToChars]
    simp
    rw [abs_of_nonpos (le_of_lt hi), neg_neg]
  · rename_i hi
    rw [parseSignedInt_natToChars h3]
    congr 2
    omega

theorem crlf_head_not_digit :
    ∀ (rest : List Char) (c : Char), (crlf ++ rest).head? = some c → c.isDigit = false := by
  intro rest c hc
  simp [crlf] at hc
  rw [← hc]
  decide

theorem parseCrlf_crlf (rest : List Char) : parseCrlf (crlf ++ rest) = some rest := rfl

theorem parseRedisInt_intToChars (i : Int) (rest : List Char) :
    parseRedisInt (intToChars i ++ (crlf ++ rest)) = some (i, rest) := by
  unfold parseRedisInt
  rw [parseSignedInt_intToChars (crlf_head_not_digit rest)]
  simp [parseCrlf_crlf]

theorem intToChars_natCast (n : Nat) : intToChars (n : Int) = natToChars n := by
  unfold intToChars
  have h : ((n : Int)).toNat = n := by omega
  rw [if_neg (by omega), h]

theorem parseRedisInt_natToChars (n : Nat) (rest : List Char) :
    parseRedisInt (natToChars n ++ (crlf ++ rest)) = some ((n : Int), rest) := by
  rw [← intToChars_natCast, parseRedisInt_intToChars]

/- ## CRLF-terminated line lemma -/

theorem parseUntilCrlf_append {s : List Char} (rest : List Char)
    (h : containsCrlf s = false) :
    parseUntilCrlf (s ++ crlf ++ rest) = some (s, rest) := by
  induction s with
  | nil =>
    show parseUntilCrlf ('\r' :: '\n' :: rest) = some ([], rest)
    rw [parseUntilCrlf]
    simp
  | cons c s' ih =>
    rcases s' with _ | ⟨c2, s''⟩
    · show parseUntilCrlf (c :: '\r' :: '\n' :: rest) = some ([c], rest)
      rw [parseUntilCrlf, if_neg (fun hh => absurd hh.2 (by decide))]
      show (parseUntilCrlf ('\r' :: '\n' :: rest)).map _ = _
      rw [parseUntilCrlf]
      simp
    · rw [containsCrlf] at h
      split at h
      · exact absurd h (by simp)
      · rename_i hne
        have hgoal : (c :: c2 :: s'') ++ crlf ++ rest =
            c :: ((c2 :: s'') ++ crlf ++ rest) := by simp
        rw [hgoal, show (c2 :: s'') ++ crlf ++ rest =
            c2 :: (s'' ++ crlf ++ rest) by simp]
        rw [parseUntilCrlf, if_neg hne]
        rw [show c2 :: (s'' ++ crlf ++ rest) = (c2 :: s'') ++ crlf ++ rest by simp,
          ih h]
        rfl

/- ## Bulk word lemma -/

theorem takeExact_append (s rest : List Char) :
    takeExact s.length (s ++ rest) = some (s, rest) := by
  induction s with
  | nil => simp [takeExact]
  | cons c s' ih => simp [takeExact, ih]

theorem parseBulkstringWord_append (s rest : List Char) :
    parseBulkstringWord s.length (s ++ (crlf ++ rest)) = some (s, rest) := by
  unfold parseBulkstringWord
  rw [takeExact_append]
  simp [parseCrlf_crlf]

/- ## The codec round trip -/

theorem emod_toNat_self {n : Nat} (h : n < 2 ^ 63) :
    ((n : Int).emod 18446744073709551616).toNat = n := by
  have h1 : (n : Int).emod 18446744073709551616 = n := by
    apply Int.emod_eq_of_lt (by omega)
    have : (n : Int) < 2 ^ 63 := by exact_mod_cast h
    omega
  omega

mutual
theorem parseRedisValue_encode : ∀ (v : RedisValue) (fuel : Nat)
    (rest : List Char), sizeOfV v ≤ fuel → wellFormed v = true →
    parseRedisValue fuel (encode v ++ rest) = some (v, rest)
  | .simpleString s, fuel, rest, hfuel, hwf => by
    obtain ⟨f, rfl⟩ : ∃ f, fuel = f + 1 := ⟨fuel - 1, by
      simp [sizeOfV] at hfuel; omega⟩
    simp only [wellFormed, Bool.not_eq_eq_eq_not, Bool.not_true] at hwf
    have hc := parseUntilCrlf_append (s := s) rest hwf
    rw [List.append_assoc] at hc
    simp [encode, parseRedisValue, List.append_assoc, hc]
  | .simpleError s, fuel, rest, hfuel, hwf => by
    obtain ⟨f, rfl⟩ : ∃ f, fuel = f + 1 := ⟨fuel - 1, by
      simp [sizeOfV] at hfuel; omega⟩
    simp only [wellFormed, Bool.not_eq_eq_eq_not, Bool.not_true] at hwf
    have hc := parseUntilCrlf_append (s := s) rest hwf
    rw [List.append_assoc] at hc
    simp [encode, parseRedisValue, List.append_assoc, hc]
  | .integer i, fuel, rest, hfuel, hwf => by
    obtain ⟨f, rfl⟩ : ∃ f, fuel = f + 1 := ⟨fuel - 1, by
      simp [sizeOfV] at hfuel; omega⟩
    simp [encode, parseRedisValue, List.append_assoc, parseRedisInt_intToChars]
  | .bulkString size s, fuel, rest, hfuel, hwf => by
    obtain ⟨f, rfl⟩ : ∃ f, fuel = f + 1 := ⟨fuel - 1, by
      simp [sizeOfV] at hfuel; omega⟩
    simp only [wellFormed, Bool.and_eq_true, decide_eq_true_eq] at hwf
    obtain ⟨rfl, hlt⟩ := hwf
    have hint := parseRedisInt_natToChars s.length (s ++ (crlf ++ rest))
    have hword := parseBulkstringWord_append s rest
    simp [encode, parseRedisValue, List.append_assoc, hint,
      show ¬((s.length : Int) = -1) by omega, emod_toNat_self hlt, hword]
  | .nullBulkString, fuel, rest, hfuel, hwf => by
    obtain ⟨f, rfl⟩ : ∃ f, fuel = f + 1 := ⟨fuel - 1, by
      simp [sizeOfV] at hfuel; omega⟩
    rfl
  | .array size elems, fuel, rest, hfuel, hwf => by
    obtain ⟨f, rfl⟩ : ∃ f, fuel = f + 1 := ⟨fuel - 1, by
      simp [sizeOfV] at hfuel; omega⟩
    simp only [wellFormed, Bool.and_eq_true, decide_eq_true_eq] at hwf
    obtain ⟨⟨rfl, hlt⟩, hwl⟩ := hwf
    have hfl : sizeOfL elems ≤ f := by
      simp only [sizeOfV] at hfuel
      omega
    have hint := parseRedisInt_natToChars elems.length (encodeList elems ++ rest)
    have hrec := parseRedisValues_encodeList elems f rest hfl hwl
    simp [encode, parseRedisValue, List.append_assoc, hint,
      show ¬((elems.length : Int) = -1) by omega, emod_toNat_self hlt, hrec]
termination_by v => 2 * sizeOfV v
decreasing_by
  simp only [sizeOfV, sizeOfL]
  omega

theorem parseRedisValues_encodeList : ∀ (vs : List RedisValue) (fuel : Nat)
    (rest : List Char), sizeOfL vs ≤ fuel → wellFormedList vs = true →
    parseCount (parseRedisValue fuel) vs.length (encodeList vs ++ rest) =
      some (vs, rest)
  | [], fuel, rest, _, _ => by simp [encodeList, parseCount]
  | v :: vs', fuel, rest, hfuel, hwf => by
    simp only [wellFormedList, Bool.and_eq_true] at hwf
    obtain ⟨hv, hvs⟩ := hwf
    simp only [sizeOfL] at hfuel
    have h1 : sizeOfV v ≤ fuel := by omega
    have h2 : sizeOfL vs' ≤ fuel := by omega
    have hhead := parseRedisValue_encode v fuel (encodeList vs' ++ rest) h1 hv
    have htail := parseRedisValues_encodeList vs' fuel rest h2 hvs
    simp [parseCount, encodeList, List.append_assoc, hhead, htail]
termination_by vs => 2 * sizeOfL vs + 1
decreasing_by
  · have := sizeOfV_pos v
    simp only [sizeOfV, sizeOfL]
    omega
  · have := sizeOfV_pos v
    simp only [sizeOfV, sizeOfL]
    omega
end


/- ## Shared helper lemmas -/

theorem alLookup_alInsert {α β : Type} [DecidableEq α]
    (l : List (α × β)) (key : α) (val : β) :
    alLookup (alInsert l key val) key = some val := by
  induction l with
  | nil => simp [alInsert, alLookup]
  | cons p r ih =>
    obtain ⟨k, v⟩ := p
    by_cases h : k = key
    · simp [alInsert, alLookup, h]
    · simp [alInsert, alLookup, h, ih]

theorem alLookup_alRemove {α β : Type} [DecidableEq α]
    (l : List (α × β)) (key : α) :
    alLookup (alRemove l key) key = none := by
  induction l with
  | nil => simp [alRemove, alLookup]
  | cons p r ih =>
    obtain ⟨k, v⟩ := p
    by_cases h : k = key
    · simpa [alRemove, h] using ih
    · simpa [alRemove, alLookup, h] using ih

/- ## C1: codec round trip -/

/-- C1: Codec round-trip: for every well-formed RespValue v (every variant
of the RedisValue type, including nested Arrays), decoding the encoding of
v yields v back and consumes exactly the encoded bytes: the parse returns v
with an empty remainder, for any fuel at least the nesting size of v. -/
theorem c1_codec_roundtrip (v : RedisValue) (fuel : Nat)
    (hfuel : sizeOfV v ≤ fuel) (hwf : wellFormed v = true) :
    parseRedisValue fuel (encode v) = some (v, []) := by
  have h := parseRedisValue_encode v fuel [] hfuel hwf
  simpa using h

/-- Witness for C1 at a concrete nested array value. -/
theorem c1_codec_roundtrip_witness :
    sizeOfV (RedisValue.array 2 [.bulkString 4 "Echo".data, .integer (-3)]) ≤ 5 ∧
    wellFormed (RedisValue.array 2 [.bulkString 4 "Echo".data, .integer (-3)]) = true ∧
    parseRedisValue 5
        (encode (RedisValue.array 2 [.bulkString 4 "Echo".data, .integer (-3)])) =
      some (RedisValue.array 2 [.bulkString 4 "Echo".data, .integer (-3)], []) :=
  ⟨by decide, by decide, c1_codec_roundtrip _ 5 (by decide) (by decide)⟩

/- ## C2: stream monotonicity (violated by the source) -/

/-- C2: the monotonicity invariant fails on the code. Starting from the
empty stream, an explicit append of id 1000-5000 succeeds; a subsequent
auto-id append (stream_id None) at current time 1000 ms also succeeds but
returns id 1000-1001, which is NOT strictly greater than 1000-5000, because
next_stream_id sets the sequence number from the last timestamp instead of
the last sequence number. -/
theorem c2_stream_monotonicity_violation :
    Stream.xadd ⟨[]⟩ 1000 [] (some ⟨1000, 5000⟩) =
      .ok (⟨1000, 5000⟩, ⟨[⟨⟨1000, 5000⟩, []⟩]⟩) ∧
    Stream.xadd ⟨[⟨⟨1000, 5000⟩, []⟩]⟩ 1000 [] none =
      .ok (⟨1000, 1001⟩, ⟨[⟨⟨1000, 5000⟩, []⟩, ⟨⟨1000, 1001⟩, []⟩]⟩) ∧
    StreamId.blt ⟨1000, 5000⟩ ⟨1000, 1001⟩ = false := by
  refine ⟨by rfl, by rfl, by decide⟩

/- ## C5: auto-id resolution (diverges from the spec formula) -/

/-- C5: on a stream whose last id is 5-0, resolving the full "*" spec at
current time 5 ms yields 5-6 in the code (timestamp_ms + 1), not the 5-1
demanded by the spec formula seq = last.seq + 1 when ts = last.ts. -/
theorem c5_auto_id_divergence :
    Stream.createStreamId ⟨[⟨⟨5, 0⟩, []⟩]⟩ 5 ['*'] = .ok ⟨5, 6⟩ ∧
    Stream.nextStreamId ⟨[⟨⟨5, 0⟩, []⟩]⟩ 5 = ⟨5, 6⟩ ∧
    (Stream.getLastStreamId ⟨[⟨⟨5, 0⟩, []⟩]⟩).seqNumber + 1 = 1 ∧
    (6 : Nat) ≠ 1 := by
  refine ⟨by rfl, by rfl, by decide, by decide⟩

/- ## C9: snapshot 14-bit length decoding (code uses AND, spec says OR) -/

/-- C9: on bytes 0x41 0x05 the source decodes length 0, because the 01 case
combines the parts with bitwise AND; the spec formula (low six bits shifted,
OR the second byte) gives 261, and the source writer itself emits 0x41 0x05
for length 261, so read of write is not the identity. -/
theorem c9_length14_divergence :
    lengthEncodingRead [65, 5] = some (0, []) ∧
    specLength14 65 5 = 261 ∧
    lengthEncodingWrite 261 = [65, 5] ∧
    lengthEncodingRead (lengthEncodingWrite 261) = some (0, []) := by
  refine ⟨by decide, by decide, by decide, by decide⟩

/- ## C7: replication forwarding -/

/-- C7: exactly the SET command is forwarded to replicas, and the forwarding
step marks every replica not up to date and appends the byte encoding of the
forwarded value verbatim to every replica stream. -/
theorem c7_forwarding (c : RedisCommand) (rv : RedisValue) (rs : List Replica) :
    (shouldForwardToReplicas c = true ↔ ∃ k v px, c = .set k v px) ∧
    forwardToReplicas rv rs =
      rs.map fun r => { r with upToDate := false, sent := r.sent ++ encode rv } := by
  constructor
  · constructor
    · intro h
      cases c <;> simp [shouldForwardToReplicas] at h ⊢
    · rintro ⟨k, v, px, rfl⟩
      rfl
  · simp [forwardToReplicas, sendToReplicas, markReplicasAsOutdated,
      List.map_map]


/- ## C3: lazy expiration -/

/-- C3: after SET with a ttl of d ms at time t0, a GET at any time
t at or past t0 + d returns none and removes the entry from the store,
while a GET strictly before the deadline returns the stored value and
leaves the store unchanged. -/
theorem c3_lazy_expiration (db : RedisDb) (k v : List Char) (t0 d t : Nat) :
    (t0 + d ≤ t →
      RedisDb.get (RedisDb.set db t0 k (.string v) (some d)) t k =
        (none, { RedisDb.set db t0 k (.string v) (some d) with
          store := alRemove (RedisDb.set db t0 k (.string v) (some d)).store k }) ∧
      alLookup
        (RedisDb.get (RedisDb.set db t0 k (.string v) (some d)) t k).2.store k =
        none) ∧
    (t < t0 + d →
      RedisDb.get (RedisDb.set db t0 k (.string v) (some d)) t k =
        (some (.string v), RedisDb.set db t0 k (.string v) (some d))) := by
  have hl : alLookup (alInsert db.store k
      (⟨.string v, some (t0 + d)⟩ : DbValue)) k =
      some ⟨.string v, some (t0 + d)⟩ := alLookup_alInsert _ _ _
  constructor
  · intro ht
    have hexp : DbValue.isExpired ⟨.string v, some (t0 + d)⟩ t = true := by
      simp [DbValue.isExpired]
      omega
    constructor
    · simp [RedisDb.set, RedisDb.get, hl, hexp]
    · simp [RedisDb.set, RedisDb.get, hl, hexp, alLookup_alRemove]
  · intro ht
    have hexp : DbValue.isExpired ⟨.string v, some (t0 + d)⟩ t = false := by
      simp [DbValue.isExpired]
      omega
    simp [RedisDb.set, RedisDb.get, hl, hexp]

/-- Witness for C3: key k with value v and ttl 100 set at time 0; a get at
time 200 removes it and returns none, a get at time 50 returns the value. -/
theorem c3_lazy_expiration_witness :
    (RedisDb.get (RedisDb.set emptyDb 0 "k".data (.string "v".data) (some 100))
        200 "k".data =
      (none, { RedisDb.set emptyDb 0 "k".data (.string "v".data) (some 100) with
        store := alRemove
          (RedisDb.set emptyDb 0 "k".data (.string "v".data) (some 100)).store
          "k".data }) ∧
      alLookup (RedisDb.get
        (RedisDb.set emptyDb 0 "k".data (.string "v".data) (some 100))
        200 "k".data).2.store "k".data = none) ∧
    RedisDb.get (RedisDb.set emptyDb 0 "k".data (.string "v".data) (some 100))
        50 "k".data =
      (some (.string "v".data),
        RedisDb.set emptyDb 0 "k".data (.string "v".data) (some 100)) :=
  ⟨(c3_lazy_expiration emptyDb "k".data "v".data 0 100 200).1 (by decide),
   (c3_lazy_expiration emptyDb "k".data "v".data 0 100 50).2 (by decide)⟩

/- ## C8: GET reply shape (simple string, not bulk string) -/

/-- C8 counterexample: on a database holding the string bar under foo, GET
foo replies with the simple string bar, which is not the bulk string of bar
that the claim asserts. -/
theorem c8_get_bulk_counterexample :
    execute (.get "foo".data) getDemoDb 0 =
      .ok (.simpleString "bar".data) getDemoDb ∧
    RedisValue.simpleString "bar".data ≠ bulkstringFrom "bar".data := by
  constructor
  · rfl
  · intro h
    rw [show bulkstringFrom "bar".data =
      RedisValue.bulkString 3 "bar".data from rfl] at h
    exact RedisValue.noConfusion h

/-- C8 (amended): for every key holding a string value, GET replies with
that value as a RESP simple string, and for every absent or expired key GET
replies with the null bulk string. -/
theorem c8_get_reply_shape (db : RedisDb) (k : List Char) (t : Nat) :
    (∀ v, (RedisDb.get db t k).1 = some (.string v) →
      execute (.get k) db t = .ok (.simpleString v) (RedisDb.get db t k).2) ∧
    ((RedisDb.get db t k).1 = none →
      execute (.get k) db t = .ok .nullBulkString (RedisDb.get db t k).2) := by
  constructor
  · intro v hv
    rcases hE : RedisDb.get db t k with ⟨o, db2⟩
    rw [hE] at hv
    simp at hv
    subst hv
    simp [execute, hE]
  · intro hv
    rcases hE : RedisDb.get db t k with ⟨o, db2⟩
    rw [hE] at hv
    simp at hv
    subst hv
    simp [execute, hE]

/-- Witness for C8 at keys foo (present) and nop (absent). -/
theorem c8_get_reply_shape_witness :
    execute (.get "foo".data) getDemoDb 0 =
      .ok (.simpleString "bar".data) (RedisDb.get getDemoDb 0 "foo".data).2 ∧
    execute (.get "nop".data) getDemoDb 0 =
      .ok .nullBulkString (RedisDb.get getDemoDb 0 "nop".data).2 :=
  ⟨(c8_get_reply_shape getDemoDb "foo".data 0).1 "bar".data (by decide),
   (c8_get_reply_shape getDemoDb "nop".data 0).2 (by decide)⟩

/- ## C10: GET is partial on stream values -/

/-- C10: executing GET against a key holding a stream hits the source todo
macro and produces no reply or error value (the panic outcome); on keys that
are absent or hold strings GET is total. -/
theorem c10_get_partial_on_streams (db : RedisDb) (k : List Char) (t : Nat) :
    (∀ s, (RedisDb.get db t k).1 = some (.stream s) →
      execute (.get k) db t = .panic) ∧
    (∀ v, (RedisDb.get db t k).1 = some (.string v) →
      execute (.get k) db t ≠ .panic) ∧
    ((RedisDb.get db t k).1 = none →
      execute (.get k) db t ≠ .panic) := by
  refine ⟨?_, ?_, ?_⟩
  · intro s hv
    rcases hE : RedisDb.get db t k with ⟨o, db2⟩
    rw [hE] at hv
    simp at hv
    subst hv
    simp [execute, hE]
  · intro v hv
    rcases hE : RedisDb.get db t k with ⟨o, db2⟩
    rw [hE] at hv
    simp at hv
    subst hv
    simp [execute, hE]
  · intro hv
    rcases hE : RedisDb.get db t k with ⟨o, db2⟩
    rw [hE] at hv
    simp at hv
    subst hv
    simp [execute, hE]

/-- Witness for C10: GET on a stream-holding key panics; GET on a string
key and on an absent key does not. -/
theorem c10_get_partial_on_streams_witness :
    execute (.get "s".data) streamDemoDb 0 = .panic ∧
    execute (.get "foo".data) getDemoDb 0 ≠ .panic ∧
    execute (.get "nop".data) getDemoDb 0 ≠ .panic :=
  ⟨(c10_get_partial_on_streams streamDemoDb "s".data 0).1
      ⟨[⟨⟨1, 1⟩, []⟩]⟩ (by decide),
   (c10_get_partial_on_streams getDemoDb "foo".data 0).2.1
      "bar".data (by decide),
   (c10_get_partial_on_streams getDemoDb "nop".data 0).2.2 (by decide)⟩


/- ## C6: XADD with an invalid explicit id -/

theorem natToChars_eq_zero_iff (n : Nat) : natToChars n = ['0'] ↔ n = 0 := by
  constructor
  · intro h
    have := digitsVal_natToChars n
    rw [h] at this
    simpa [digitsVal, charToDigit] using this.symm
  · rintro rfl
    rfl

theorem streamIdToString_eq_zeroZero {sid : StreamId} :
    streamIdToString sid = "0-0".data ↔ sid = ⟨0, 0⟩ := by
  constructor
  · intro h
    unfold streamIdToString at h
    rcases hA : natToChars sid.timestampMs with _ | ⟨a, A⟩
    · exact absurd hA (natToChars_ne_nil _)
    rw [hA] at h
    rcases A with _ | ⟨b, B⟩
    · simp [show "0-0".data = ['0', '-', '0'] from rfl] at h
      obtain ⟨ha, hseq⟩ := h
      have hts : sid.timestampMs = 0 := by
        rw [← natToChars_eq_zero_iff, hA, ha]
      have hsq : sid.seqNumber = 0 := by
        rw [← natToChars_eq_zero_iff, hseq]
      cases sid
      simp_all
    · have hb : b.isDigit = true :=
        natToChars_digits sid.timestampMs b (by rw [hA]; simp)
      simp [show "0-0".data = ['0', '-', '0'] from rfl] at h
      obtain ⟨-, hbdash, -⟩ := h
      rw [hbdash] at hb
      exact absurd hb (by decide)
  · rintro rfl
    rfl

theorem tweakPendingOnXadd_store (db : RedisDb) (k : List Char) :
    (tweakPendingOnXadd db k).store = db.store := by
  cases hp : db.pendingStreamXread <;> simp [tweakPendingOnXadd, hp]
  split <;> rfl

/-- C6: for every stream held in the database and every XADD whose explicit
id resolves to a value at or below the stream last id, the append fails, the
stored stream is unchanged (only the pending-xread timeout may be adjusted),
and the reply is the 0-0 simple error when the resolved id is 0-0 and the
equal-or-smaller simple error otherwise. -/
theorem c6_xadd_invalid_id (db : RedisDb) (now : Nat) (k spec : List Char)
    (s : Stream) (exp : Option Nat) (fields : List (List Char × List Char))
    (sid : StreamId)
    (hs : alLookup db.store k = some ⟨.stream s, exp⟩)
    (hid : s.createStreamId now spec = .ok sid)
    (hle : sid.ble s.getLastStreamId = true) :
    execute (.xadd k spec fields) db now =
      .ok (.simpleError
        (if sid = ⟨0, 0⟩ then xaddZeroErrMsg else xaddSmallErrMsg))
        (tweakPendingOnXadd db k) ∧
    alLookup (tweakPendingOnXadd db k).store k = some ⟨.stream s, exp⟩ := by
  have hstore := tweakPendingOnXadd_store db k
  have hx : RedisDb.xadd db now k spec fields =
      (.error (.invalidStreamId (streamIdToString s.getLastStreamId)
        (streamIdToString sid)), tweakPendingOnXadd db k) := by
    unfold RedisDb.xadd
    simp only [hstore, hs, hid, Stream.xadd, hle, eq_self_iff_true, if_true]
    congr 1
    cases htw : tweakPendingOnXadd db k
    simp_all
  constructor
  · simp only [execute, hx]
    by_cases h0 : sid = ⟨0, 0⟩
    · subst h0
      rw [if_pos (by rfl), if_pos rfl]
    · rw [if_neg (fun hh => h0 (streamIdToString_eq_zeroZero.mp hh)),
        if_neg h0]
  · rw [hstore]
    exact hs

/-- Witness for C6: following the spec scenario, XADD s 1-1 on a stream
whose last entry already has id 1-1 fails with the equal-or-smaller error
and leaves the stream unchanged. -/
theorem c6_xadd_invalid_id_witness :
    execute (.xadd "s".data "1-1".data []) streamDemoDb 0 =
      .ok (.simpleError
        (if (⟨1, 1⟩ : StreamId) = ⟨0, 0⟩ then xaddZeroErrMsg
          else xaddSmallErrMsg))
        (tweakPendingOnXadd streamDemoDb "s".data) ∧
    alLookup (tweakPendingOnXadd streamDemoDb "s".data).store "s".data =
      some ⟨.stream ⟨[⟨⟨1, 1⟩, []⟩]⟩, none⟩ :=
  c6_xadd_invalid_id streamDemoDb 0 "s".data "1-1".data
    ⟨[⟨⟨1, 1⟩, []⟩]⟩ none [] ⟨1, 1⟩ (by decide) (by rfl) (by decide)


/- ## C4: transaction atomic reply -/

theorem redisDbGet_tx (db : RedisDb) (now : Nat) (k : List Char) :
    (RedisDb.get db now k).2.ongoingTransactions = db.ongoingTransactions := by
  unfold RedisDb.get
  cases h : alLookup db.store k <;> simp [h]
  split <;> rfl

theorem redisDbIncr_tx (db : RedisDb) (k : List Char) :
    (RedisDb.incr db k).2.ongoingTransactions = db.ongoingTransactions := by
  unfold RedisDb.incr
  cases h : alLookup db.store k with
  | none => simp [h]
  | some dbv =>
    cases hv : dbv.value with
    | string val => cases hp : parseI64 val <;> simp [h, hv, hp]
    | stream s2 => simp [h, hv]

theorem tweakPendingOnXadd_tx (db : RedisDb) (k : List Char) :
    (tweakPendingOnXadd db k).ongoingTransactions = db.ongoingTransactions := by
  cases hp : db.pendingStreamXread <;> simp [tweakPendingOnXadd, hp]
  split <;> rfl

theorem dbXadd_tx (db : RedisDb) (now : Nat) (k spec : List Char)
    (fields : List (List Char × List Char)) :
    (RedisDb.xadd db now k spec fields).2.ongoingTransactions =
      db.ongoingTransactions := by
  have htw := tweakPendingOnXadd_tx db k
  unfold RedisDb.xadd
  cases h : alLookup (tweakPendingOnXadd db k).store k with
  | none =>
    cases hc : Stream.createStreamId ⟨[]⟩ now spec with
    | error e => simp [h, hc, htw]
    | ok sid =>
      cases hxx : Stream.xadd ⟨[]⟩ now fields (some sid) with
      | error e => simp [h, hc, hxx, htw]
      | ok p => simp [h, hc, hxx, htw]
  | some dbv =>
    cases hv : dbv.value with
    | string s2 => simp [h, hv, htw]
    | stream s2 =>
      cases hc : Stream.createStreamId s2 now spec with
      | error e => simp [h, hv, hc, htw]
      | ok sid =>
        cases hxx : Stream.xadd s2 now fields (some sid) with
        | error e => simp [h, hv, hc, hxx, htw]
        | ok p => simp [h, hv, hc, hxx, htw]

theorem dbXrange_tx (db : RedisDb) (now : Nat) (k s1 s2 : List Char) :
    (RedisDb.xrange db now k s1 s2).2.ongoingTransactions =
      db.ongoingTransactions := by
  unfold RedisDb.xrange
  cases h : alLookup db.store k with
  | none => simp [h]
  | some dbv => cases hv : dbv.value <;> simp [h, hv]

theorem dbXread_tx (db : RedisDb) (now : Nat) (k s1 : List Char) :
    (RedisDb.xread db now k s1).2.ongoingTransactions =
      db.ongoingTransactions := by
  unfold RedisDb.xread
  cases h : alLookup db.store k with
  | none => simp [h]
  | some dbv => cases hv : dbv.value <;> simp [h, hv]

theorem xreadFold_tx (now : Nat) :
    ∀ (pairs : List (List Char × List Char)) (acc : List RedisValue × RedisDb),
    ((pairs.foldl (xreadStep now) acc).2).ongoingTransactions =
      acc.2.ongoingTransactions := by
  intro pairs
  induction pairs with
  | nil => intro acc; rfl
  | cons p ps ih =>
    intro acc
    rw [List.foldl_cons, ih]
    show (xreadStep now acc p).2.ongoingTransactions = _
    unfold xreadStep
    simp [dbXread_tx]

theorem execute_ok_tx {c : RedisCommand} {db : RedisDb} {now : Nat}
    {v : RedisValue} {db2 : RedisDb} (h : execute c db now = .ok v db2) :
    db2.ongoingTransactions = db.ongoingTransactions := by
  cases c with
  | ping =>
    simp only [execute, ExecOutcome.ok.injEq] at h
    rw [← h.2]
  | echo x =>
    simp only [execute, ExecOutcome.ok.injEq] at h
    rw [← h.2]
  | set k val px =>
    simp only [execute, ExecOutcome.ok.injEq] at h
    rw [← h.2]
    rfl
  | get k =>
    rcases hE : RedisDb.get db now k with ⟨o, dbg⟩
    have htx := redisDbGet_tx db now k
    rw [hE] at htx
    rcases o with - | vt
    · simp only [execute, hE, ExecOutcome.ok.injEq] at h
      rw [← h.2]
      exact htx
    · rcases vt with val | s2
      · simp only [execute, hE, ExecOutcome.ok.injEq] at h
        rw [← h.2]
        exact htx
      · simp [execute, hE] at h
  | incr k =>
    rcases hI : RedisDb.incr db k with ⟨r, dbi⟩
    have htx := redisDbIncr_tx db k
    rw [hI] at htx
    rcases r with e | n <;>
      simp only [execute, hI, ExecOutcome.ok.injEq] at h <;>
      rw [← h.2] <;> exact htx
  | info x =>
    simp only [execute] at h
    split at h
    · simp only [ExecOutcome.ok.injEq] at h
      rw [← h.2]
    · simp at h
  | replConf =>
    simp only [execute, ExecOutcome.ok.injEq] at h
    rw [← h.2]
  | replConfGetAck =>
    simp only [execute, ExecOutcome.ok.injEq] at h
    rw [← h.2]
  | psync =>
    simp only [execute, ExecOutcome.ok.injEq] at h
    rw [← h.2]
  | wait a b => simp [execute] at h
  | configGet val =>
    simp only [execute] at h
    split at h
    · simp only [ExecOutcome.ok.injEq] at h
      rw [← h.2]
    · split at h
      · simp only [ExecOutcome.ok.injEq] at h
        rw [← h.2]
      · simp at h
  | keys pat =>
    simp only [execute, ExecOutcome.ok.injEq] at h
    rw [← h.2]
  | typeOf k =>
    rcases hE : RedisDb.get db now k with ⟨o, dbg⟩
    have htx := redisDbGet_tx db now k
    rw [hE] at htx
    rcases o with - | vt
    · simp only [execute, hE, ExecOutcome.ok.injEq] at h
      rw [← h.2]
      exact htx
    · rcases vt with val | s2 <;>
        simp only [execute, hE, ExecOutcome.ok.injEq] at h <;>
        rw [← h.2] <;> exact htx
  | xadd k sid fields =>
    rcases hX : RedisDb.xadd db now k sid fields with ⟨r, dbx⟩
    have htx := dbXadd_tx db now k sid fields
    rw [hX] at htx
    rcases r with e | ridStr
    · cases e with
      | invalidStreamId a got =>
        simp only [execute, hX] at h
        split at h <;> simp only [ExecOutcome.ok.injEq] at h <;>
          rw [← h.2] <;> exact htx
      | invalidRedisCommand => simp [execute, hX] at h
      | cantConvertToMsTimestamp s2 => simp [execute, hX] at h
      | wrongTypeOperation => simp [execute, hX] at h
      | parseIntError => simp [execute, hX] at h
    · simp only [execute, hX, ExecOutcome.ok.injEq] at h
      rw [← h.2]
      exact htx
  | xrange k s1 s2 =>
    rcases hX : RedisDb.xrange db now k s1 s2 with ⟨r, dbx⟩
    have htx := dbXrange_tx db now k s1 s2
    rw [hX] at htx
    rcases r with e | res
    · simp [execute, hX] at h
    · simp only [execute, hX, ExecOutcome.ok.injEq] at h
      rw [← h.2]
      exact htx
  | xread block pairs =>
    have hf := xreadFold_tx now pairs ([], db)
    simp only [execute] at h
    split at h <;> simp only [ExecOutcome.ok.injEq] at h <;>
      rw [← h.2] <;> exact hf
  | multi => simp [execute] at h
  | exec => simp [execute] at h
  | discard => simp [execute] at h

theorem execCommands_tx :
    ∀ (cmds : List RedisCommand) (db : RedisDb) (now : Nat)
    (rs : List RedisValue) (db2 : RedisDb),
    execCommands cmds db now = some (rs, db2) →
    db2.ongoingTransactions = db.ongoingTransactions := by
  intro cmds
  induction cmds with
  | nil =>
    intro db now rs db2 h
    simp [execCommands] at h
    rw [← h.2]
  | cons c cs ih =>
    intro db now rs db2 h
    simp only [execCommands] at h
    rcases he : execute c db now with ⟨v, db1⟩ | _ | _ <;> rw [he] at h <;>
      try simp at h
    rcases hr : execCommands cs db1 now with - | p <;> rw [hr] at h <;>
      simp at h
    obtain ⟨a, hp, -⟩ := h
    have hdb : db2 = p.2 := by rw [hp]
    rw [hdb, ih db1 now p.1 p.2 (by rw [hr])]
    exact execute_ok_tx he

theorem execCommands_length :
    ∀ (cmds : List RedisCommand) (db : RedisDb) (now : Nat)
    (rs : List RedisValue) (db2 : RedisDb),
    execCommands cmds db now = some (rs, db2) → rs.length = cmds.length := by
  intro cmds
  induction cmds with
  | nil =>
    intro db now rs db2 h
    simp [execCommands] at h
    rw [h.1]
    rfl
  | cons c cs ih =>
    intro db now rs db2 h
    simp only [execCommands] at h
    rcases he : execute c db now with ⟨v, db1⟩ | _ | _ <;> rw [he] at h <;>
      try simp at h
    rcases hr : execCommands cs db1 now with - | p <;> rw [hr] at h <;>
      simp at h
    obtain ⟨a, hp, hd⟩ := h
    have ha : a = p.1 := by rw [hp]
    rw [← hd]
    simp [ha, ih db1 now p.1 p.2 (by rw [hr])]

/-- C4: for a connection whose open transaction queue holds the commands
cmds, receiving EXEC removes the queue, executes the queued commands in
queueing order, and, when all of them produce responses rs, replies with a
RESP Array of exactly rs elements in that order, where rs has the same
length as cmds; afterwards the connection has no queue. -/
theorem c4_transaction_atomic_reply (token : Nat) (db : RedisDb) (now : Nat)
    (cmds : List RedisCommand) (rs : List RedisValue) (db2 : RedisDb)
    (hq : alLookup db.ongoingTransactions token = some cmds)
    (hrun : execCommands cmds
      { db with ongoingTransactions := alRemove db.ongoingTransactions token }
      now = some (rs, db2)) :
    handleExec token db now = some (.array rs.length rs, db2) ∧
    rs.length = cmds.length ∧
    alLookup db2.ongoingTransactions token = none := by
  refine ⟨?_, execCommands_length _ _ _ _ _ hrun, ?_⟩
  · unfold handleExec
    rw [hq]
    simp only [hrun]
  · have htx := execCommands_tx _ _ _ _ _ hrun
    rw [htx]
    exact alLookup_alRemove _ _

/-- Witness for C4, the spec transaction scenario: a queue of two INCR k
commands replies with the two-element array of 1 and 2 and destroys the
queue. -/
theorem c4_transaction_atomic_reply_witness :
    handleExec 20 txDemoDb 0 =
      some (.array 2 [.integer 1, .integer 2],
        { emptyDb with store := [("k".data, ⟨.string ['2'], none⟩)] }) ∧
    (2 : Nat) = 2 ∧
    alLookup ({ emptyDb with
      store := [("k".data, ⟨.string ['2'], none⟩)] }).ongoingTransactions 20 =
      none := by
  have h := c4_transaction_atomic_reply 20 txDemoDb 0
    [.incr "k".data, .incr "k".data] [.integer 1, .integer 2]
    { emptyDb with store := [("k".data, ⟨.string ['2'], none⟩)] }
    (by rfl) (by rfl)
  exact ⟨h.1, h.2.1, h.2.2⟩

end Redis
